import Mathlib

/-!
Shallow embedding of the demoday evaluation backend (`src/unnamed/part_000`,
an Express application).  The global mutable document `dbData` becomes an
explicit `DB` value threaded through every route handler; each handler is a
function `DB → args → ApiResult × DB` returning the HTTP outcome and the
store after the request.  JavaScript numbers produced by the app (results of
`parseFloat`, sums and quotients of those) are modelled as `JsNum`: either a
rational value or the NaN sentinel, with NaN propagating through addition
and division exactly as IEEE NaN does.
-/

namespace Demoday

/-- A JavaScript number as this app produces them: a numeric value (modelled
as a rational, abstracting from floating-point rounding) or the NaN sentinel
returned by a failed `parseFloat`. -/
inductive JsNum where
  | nan : JsNum
  | num (q : ℚ) : JsNum
deriving DecidableEq, Repr

/-- JavaScript `+` on numbers: NaN propagates through sums. -/
def jadd : JsNum → JsNum → JsNum
  | JsNum.num a, JsNum.num b => JsNum.num (a + b)
  | _, _ => JsNum.nan

/-- JavaScript division of a number by a nonnegative integer count.  NaN
propagates.  The count-zero case (JS would give NaN or ±Infinity) is mapped
to NaN; it is unreachable in the aggregation (see the count-positivity
theorem). -/
def jdiv : JsNum → Nat → JsNum
  | _, 0 => JsNum.nan
  | JsNum.nan, _ => JsNum.nan
  | JsNum.num a, Nat.succ n => JsNum.num (a / (Nat.succ n : ℚ))

/-- Value of a list of decimal digits read left to right (integer part). -/
def digitsVal (l : List Char) : ℚ :=
  l.foldl (fun acc c => acc * 10 + ((c.toNat - '0'.toNat : ℕ) : ℚ)) 0

/-- Value of a list of decimal digits read as the fractional part `0.d₁d₂…`. -/
def fracVal (l : List Char) : ℚ :=
  l.foldr (fun c acc => (((c.toNat - '0'.toNat : ℕ) : ℚ) + acc) / 10) 0

/-- Model of the JavaScript builtin `parseFloat`, restricted to the inputs
this app meets: optional leading whitespace, an optional sign, then a
decimal literal `digits [ "." digits ]` (at least one digit overall).
Anything else — including the empty string, which also stands for an absent
field — yields the NaN sentinel.  (Exponents and `Infinity`, which
`parseFloat` would also accept, are not used by the app and are omitted.) -/
def parseFloat (s : String) : JsNum :=
  let cs := s.data.dropWhile (fun c => c = ' ' || c = '\t' || c = '\n')
  let signed : ℚ × List Char :=
    match cs with
    | '-' :: rest => (-1, rest)
    | '+' :: rest => (1, rest)
    | _ => (1, cs)
  let intPart := signed.2.takeWhile Char.isDigit
  let afterInt := signed.2.dropWhile Char.isDigit
  let fracPart : List Char :=
    match afterInt with
    | '.' :: r => r.takeWhile Char.isDigit
    | _ => []
  if intPart = [] ∧ fracPart = [] then JsNum.nan
  else JsNum.num (signed.1 * (digitsVal intPart + fracVal fracPart))

/-- A stored evaluation session (lines 157–163 of the source). -/
structure Session where
  id : String
  name : String
  campus : String
  juries : List String
  students : List String
deriving DecidableEq, Repr

/-- A stored submission (lines 364–387).  The 18 numeric criteria are
indexed by `Fin 18` in source order: introductionTeam, projectInspiration,
technologyArchitecture, algorithmsCode, processCollaboration,
challengesFaced, technicalLearnings, audibles, clarity, fewFillerWords,
stagePosition, confidentPosture, professionalAttire, timeManagement,
energy, audienceInteraction, projectFunctionality, questionsAnswers. -/
structure Submission where
  sessionId : String
  juryName : String
  studentName : String
  scores : Fin 18 → JsNum
  studentComments : String
deriving DecidableEq

/-- The persistent document: `dbData = { sessions: [], submissions: [] }`. -/
structure DB where
  sessions : List Session
  submissions : List Submission
deriving DecidableEq

/-- HTTP outcome of a route handler (the 401 of the authentication
middleware is outside the handlers modelled here; every operation below is
invoked with the authenticated caller's campus). -/
inductive ApiResult where
  | ok (msg : String) (sessionPayload : Option Session)
  | badRequest (msg : String)
  | forbidden (msg : String)
  | notFound (msg : String)
deriving DecidableEq, Repr

/-- HTTP status code of an outcome. -/
def statusCode : ApiResult → Nat
  | ApiResult.ok _ _ => 200
  | ApiResult.badRequest _ => 400
  | ApiResult.forbidden _ => 403
  | ApiResult.notFound _ => 404

/-- Replace the first element satisfying `p` by its image under `f`; this is
how the JavaScript in-place mutation of the session object returned by
`Array.prototype.find` acts on the sessions list. -/
def updateFirst (p : Session → Bool) (f : Session → Session) : List Session → List Session
  | [] => []
  | s :: rest => if p s then f s :: rest else s :: updateFirst p f rest

/-- GET `/api/sessions` (lines 142–147): the sessions of the caller's
campus, in store order.  Reads only. -/
def listSessions (db : DB) (campus : String) : List Session × DB :=
  (db.sessions.filter (fun s => s.campus == campus), db)

/-- POST `/api/sessions` (lines 150–173).  `name` is the request-body field
(`none` when absent); `freshId` stands for the `uuidv4()` value drawn by the
handler. -/
def createSession (db : DB) (campus freshId : String) (name : Option String) : ApiResult × DB :=
  match name with
  | none => (ApiResult.badRequest "Session name is required.", db)
  | some n =>
    if n = "" then (ApiResult.badRequest "Session name is required.", db)
    else
      let newSession : Session :=
        { id := freshId, name := n, campus := campus, juries := [], students := [] }
      (ApiResult.ok "Session created successfully!" (some newSession),
        { db with sessions := db.sessions ++ [newSession] })

/-- DELETE `/api/sessions/:id` (lines 176–199): 404 when no session has the
id, 403 when the (first) matching session belongs to another campus, else
splice the session out and drop every submission whose `sessionId` matches
(the cascade). -/
def deleteSession (db : DB) (campus sessionId : String) : ApiResult × DB :=
  match db.sessions.find? (fun s => s.id == sessionId) with
  | none => (ApiResult.notFound "Session not found.", db)
  | some sessionToDelete =>
    if sessionToDelete.campus ≠ campus then
      (ApiResult.forbidden "Forbidden - Session belongs to another campus.", db)
    else
      (ApiResult.ok "Session deleted successfully." none,
        { sessions := db.sessions.eraseP (fun s => s.id == sessionId),
          submissions := db.submissions.filter (fun sub => sub.sessionId != sessionId) })

/-- POST `/api/sessions/:id/juries` (lines 207–233).  Note the order of
checks: the missing-name 400 fires before the existence and ownership
checks. -/
def addJury (db : DB) (campus sessionId : String) (juryName : Option String) : ApiResult × DB :=
  match juryName with
  | none => (ApiResult.badRequest "Jury name is required.", db)
  | some j =>
    if j = "" then (ApiResult.badRequest "Jury name is required.", db)
    else
      match db.sessions.find? (fun s => s.id == sessionId) with
      | none => (ApiResult.notFound "Session not found.", db)
      | some sessionFound =>
        if sessionFound.campus ≠ campus then
          (ApiResult.forbidden "Forbidden - Session belongs to another campus.", db)
        else
          let updated := { sessionFound with juries := sessionFound.juries ++ [j] }
          (ApiResult.ok "Jury added successfully." (some updated),
            { db with sessions := updateFirst (fun s => s.id == sessionId) (fun _ => updated) db.sessions })

/-- DELETE `/api/sessions/:id/juries` (lines 236–258): no name validation;
`filter (j !== juryName)` drops every occurrence of the name (comparison
against `undefined` when the field is absent keeps everything). -/
def removeJury (db : DB) (campus sessionId : String) (juryName : Option String) : ApiResult × DB :=
  match db.sessions.find? (fun s => s.id == sessionId) with
  | none => (ApiResult.notFound "Session not found.", db)
  | some sessionFound =>
    if sessionFound.campus ≠ campus then
      (ApiResult.forbidden "Forbidden - Session belongs to another campus.", db)
    else
      let updated := { sessionFound with juries := sessionFound.juries.filter (fun j => some j != juryName) }
      (ApiResult.ok "Jury deleted successfully." (some updated),
        { db with sessions := updateFirst (fun s => s.id == sessionId) (fun _ => updated) db.sessions })

/-- POST `/api/sessions/:id/students` (lines 261–287), symmetric to
`addJury`. -/
def addStudent (db : DB) (campus sessionId : String) (studentName : Option String) : ApiResult × DB :=
  match studentName with
  | none => (ApiResult.badRequest "Student name is required.", db)
  | some st =>
    if st = "" then (ApiResult.badRequest "Student name is required.", db)
    else
      match db.sessions.find? (fun s => s.id == sessionId) with
      | none => (ApiResult.notFound "Session not found.", db)
      | some sessionFound =>
        if sessionFound.campus ≠ campus then
          (ApiResult.forbidden "Forbidden - Session belongs to another campus.", db)
        else
          let updated := { sessionFound with students := sessionFound.students ++ [st] }
          (ApiResult.ok "Student added successfully." (some updated),
            { db with sessions := updateFirst (fun s => s.id == sessionId) (fun _ => updated) db.sessions })

/-- DELETE `/api/sessions/:id/students` (lines 290–312), symmetric to
`removeJury`. -/
def removeStudent (db : DB) (campus sessionId : String) (studentName : Option String) : ApiResult × DB :=
  match db.sessions.find? (fun s => s.id == sessionId) with
  | none => (ApiResult.notFound "Session not found.", db)
  | some sessionFound =>
    if sessionFound.campus ≠ campus then
      (ApiResult.forbidden "Forbidden - Session belongs to another campus.", db)
    else
      let updated := { sessionFound with students := sessionFound.students.filter (fun st => some st != studentName) }
      (ApiResult.ok "Student deleted successfully." (some updated),
        { db with sessions := updateFirst (fun s => s.id == sessionId) (fun _ => updated) db.sessions })

/-- Request body of POST `/api/submitEvaluation`; `rawScores i` is the raw
input representation of the i-th criterion field (the empty string also
standing for an absent field, which `parseFloat` maps to NaN either way). -/
structure SubmitRequest where
  sessionId : String
  juryName : String
  studentName : String
  rawScores : Fin 18 → String
  studentComments : Option String

/-- The submission object built at lines 364–387: each score field goes
through `parseFloat` unconditionally, `studentComments` defaults to the
empty string. -/
def mkSubmission (r : SubmitRequest) : Submission :=
  { sessionId := r.sessionId
  , juryName := r.juryName
  , studentName := r.studentName
  , scores := fun i => parseFloat (r.rawScores i)
  , studentComments := r.studentComments.getD "" }

/-- POST `/api/submitEvaluation` (lines 320–394): 400 when the session does
not exist, 403 on foreign campus, 400 when the jury or the student is not
listed; otherwise append the parsed submission. -/
def submitEvaluation (db : DB) (campus : String) (r : SubmitRequest) : ApiResult × DB :=
  match db.sessions.find? (fun s => s.id == r.sessionId) with
  | none => (ApiResult.badRequest "Session does not exist.", db)
  | some sessionFound =>
    if sessionFound.campus ≠ campus then
      (ApiResult.forbidden "Forbidden - Session belongs to another campus.", db)
    else if ¬ sessionFound.juries.contains r.juryName then
      (ApiResult.badRequest "Jury does not exist in this session.", db)
    else if ¬ sessionFound.students.contains r.studentName then
      (ApiResult.badRequest "Student does not exist in this session.", db)
    else
      (ApiResult.ok "Evaluation submitted successfully!" none,
        { db with submissions := db.submissions ++ [mkSubmission r] })

/-- One value of the `aggregates` dictionary (lines 411–434): running sums
of the 18 criteria plus a count, remembering the sessionId/studentName of
the submission that created the entry. -/
structure AggEntry where
  sessionId : String
  studentName : String
  sums : Fin 18 → JsNum
  count : Nat
deriving DecidableEq

/-- The grouping key `` `${sub.sessionId}_${sub.studentName}` `` (line 409). -/
def subKey (sub : Submission) : String :=
  sub.sessionId ++ "_" ++ sub.studentName

/-- The body of lines 437–456: add the submission's scores to the entry's
running sums and bump its count. -/
def bumpEntry (sub : Submission) (a : AggEntry) : AggEntry :=
  { a with sums := fun i => jadd (a.sums i) (sub.scores i), count := a.count + 1 }

/-- The own property names of `Object.prototype` in a JS runtime.  Looking
any of these up on the empty plain object `aggregates = {}` yields a truthy
inherited value (a builtin function, or the `__proto__` accessor), so the
guard `if (!aggregates[key])` at line 411 never creates an own entry under
such a key: the bump at lines 437–456 then lands on `Object.prototype`, and
`Object.values` at line 460 never reports the group.  Only the five
underscore-containing names are reachable as grouping keys, since every
grouping key contains an underscore. -/
def protoKeys : List String :=
  ["constructor", "hasOwnProperty", "isPrototypeOf", "propertyIsEnumerable",
   "toLocaleString", "toString", "valueOf", "__proto__",
   "__defineGetter__", "__defineSetter__", "__lookupGetter__", "__lookupSetter__"]

/-- One step of the `rawSubmissions.forEach` loop (lines 408–457): when
`aggregates[key]` is truthy — an already-created own entry, or a value
inherited from `Object.prototype` (`protoKeys`) — no entry is created and
the bump updates the matching own entry if there is one; otherwise a zero
entry is appended and bumped.  When the key is inherited, the bump's writes
land on `Object.prototype`; they are dropped here because no later read of
the program can observe them (every grouping key contains an underscore
while the polluted field names do not, and every other object carries its
fields as own properties).  The own-property dictionary is an association
list in insertion order, matching the enumeration order of a JS object
whose keys all contain an underscore (hence are never array indices). -/
def aggStep (aggs : List (String × AggEntry)) (sub : Submission) : List (String × AggEntry) :=
  if aggs.any (fun p => p.1 == subKey sub) || protoKeys.contains (subKey sub) then
    aggs.map (fun p => if p.1 == subKey sub then (p.1, bumpEntry sub p.2) else p)
  else
    aggs ++ [(subKey sub, bumpEntry sub
      { sessionId := sub.sessionId
      , studentName := sub.studentName
      , sums := fun _ => JsNum.num 0
      , count := 0 })]

/-- The whole `aggregates` dictionary (its own entries) after the forEach
loop. -/
def aggregatesOf (raw : List Submission) : List (String × AggEntry) :=
  raw.foldl aggStep []

/-- One element of the `aggregated` response array (lines 460–481). -/
structure AggregateRow where
  sessionId : String
  studentName : String
  avgs : Fin 18 → JsNum
deriving DecidableEq

/-- Divide each running sum by the count (lines 460–481). -/
def mkRow (a : AggEntry) : AggregateRow :=
  { sessionId := a.sessionId, studentName := a.studentName
  , avgs := fun i => jdiv (a.sums i) a.count }

/-- Response body of GET `/api/resultsWithAverages`. -/
structure ResultsResponse where
  rawSubmissions : List Submission
  aggregated : List AggregateRow
  sessions : List Session

/-- GET `/api/resultsWithAverages` (lines 397–488): filter the campus's
sessions, keep the submissions whose sessionId is among their ids, fold
them into the aggregates dictionary and divide by the counts.  Reads only. -/
def resultsWithAverages (db : DB) (campus : String) : ResultsResponse × DB :=
  let campusSessions := db.sessions.filter (fun s => s.campus == campus)
  let campusSessionIds := campusSessions.map (fun s => s.id)
  let rawSubmissions := db.submissions.filter (fun sub => campusSessionIds.contains sub.sessionId)
  let aggregated := (aggregatesOf rawSubmissions).map (fun p => mkRow p.2)
  ({ rawSubmissions := rawSubmissions, aggregated := aggregated, sessions := campusSessions }, db)

/-- Well-formedness of the store assumed throughout: session ids are
pairwise distinct (they are drawn from `uuidv4()`; the specification calls
the id an "opaque unique identifier"). -/
def uniqueIds (db : DB) : Prop :=
  (db.sessions.map Session.id).Nodup

instance (db : DB) : Decidable (uniqueIds db) := by
  unfold uniqueIds
  infer_instance

/-! ### Specification-side helpers

`firstOccDedup` describes the key order of a JS object built by repeated
insertion; `keyGroup`/`entryOfGroup` describe the contents of one aggregate
entry directly in terms of the raw submission list. -/

/-- Append `x` unless it is already present: one insertion into a JS object
viewed as an ordered key list. -/
def insertIfNew {α : Type} [DecidableEq α] (acc : List α) (x : α) : List α :=
  if x ∈ acc then acc else acc ++ [x]

/-- The distinct elements of `l`, in order of first occurrence. -/
def firstOccDedup {α : Type} [DecidableEq α] (l : List α) : List α :=
  l.foldl insertIfNew []

theorem mem_insertIfNew {α : Type} [DecidableEq α] {acc : List α} {x a : α} :
    a ∈ insertIfNew acc x ↔ a ∈ acc ∨ a = x := by
  by_cases h : x ∈ acc
  · simp only [insertIfNew, if_pos h]
    constructor
    · exact Or.inl
    · rintro (h1 | rfl)
      · exact h1
      · exact h
  · simp [insertIfNew, if_neg h]

theorem mem_foldl_insertIfNew {α : Type} [DecidableEq α] (l : List α) :
    ∀ (acc : List α) (a : α), a ∈ l.foldl insertIfNew acc ↔ a ∈ acc ∨ a ∈ l := by
  induction l with
  | nil => intro acc a; simp
  | cons x l ih =>
    intro acc a
    rw [List.foldl_cons, ih, mem_insertIfNew]
    constructor
    · rintro ((h | rfl) | h)
      · exact Or.inl h
      · exact Or.inr (List.mem_cons_self _ _)
      · exact Or.inr (List.mem_cons_of_mem _ h)
    · rintro (h | h)
      · exact Or.inl (Or.inl h)
      · rcases List.mem_cons.mp h with rfl | h
        · exact Or.inl (Or.inr rfl)
        · exact Or.inr h

theorem mem_firstOccDedup {α : Type} [DecidableEq α] {l : List α} {a : α} :
    a ∈ firstOccDedup l ↔ a ∈ l := by
  rw [firstOccDedup, mem_foldl_insertIfNew]
  simp

theorem firstOccDedup_append_singleton {α : Type} [DecidableEq α] (l : List α) (x : α) :
    firstOccDedup (l ++ [x]) = insertIfNew (firstOccDedup l) x := by
  unfold firstOccDedup
  rw [List.foldl_append]
  rfl

theorem foldl_insertIfNew_map {α β : Type} [DecidableEq α] [DecidableEq β] (f : α → β) :
    ∀ (l acc : List α),
      (∀ a, (a ∈ l ∨ a ∈ acc) → ∀ b, (b ∈ l ∨ b ∈ acc) → f a = f b → a = b) →
      (l.map f).foldl insertIfNew (acc.map f) = (l.foldl insertIfNew acc).map f := by
  intro l
  induction l with
  | nil => intro acc _; rfl
  | cons x l ih =>
    intro acc hinj
    rw [List.map_cons, List.foldl_cons, List.foldl_cons]
    have hins : insertIfNew (acc.map f) (f x) = (insertIfNew acc x).map f := by
      by_cases hx : x ∈ acc
      · have hfx : f x ∈ acc.map f := List.mem_map_of_mem f hx
        unfold insertIfNew
        rw [if_pos hx, if_pos hfx]
      · have hfx : f x ∉ acc.map f := by
          intro hmem
          rcases List.mem_map.mp hmem with ⟨b, hb, hfb⟩
          have hbx : b = x := hinj b (Or.inr hb) x (Or.inl (List.mem_cons_self _ _)) hfb
          exact hx (hbx ▸ hb)
        unfold insertIfNew
        rw [if_neg hx, if_neg hfx, List.map_append]
        rfl
    rw [hins]
    refine ih (insertIfNew acc x) ?_
    intro a ha b hb hf
    have ha' : a ∈ x :: l ∨ a ∈ acc := by
      rcases ha with ha | ha
      · exact Or.inl (List.mem_cons_of_mem _ ha)
      · rcases mem_insertIfNew.mp ha with h | rfl
        · exact Or.inr h
        · exact Or.inl (List.mem_cons_self _ _)
    have hb' : b ∈ x :: l ∨ b ∈ acc := by
      rcases hb with hb | hb
      · exact Or.inl (List.mem_cons_of_mem _ hb)
      · rcases mem_insertIfNew.mp hb with h | rfl
        · exact Or.inr h
        · exact Or.inl (List.mem_cons_self _ _)
    exact hinj a ha' b hb' hf

theorem firstOccDedup_map_of_inj {α β : Type} [DecidableEq α] [DecidableEq β] {f : α → β}
    {l : List α} (hinj : ∀ a ∈ l, ∀ b ∈ l, f a = f b → a = b) :
    firstOccDedup (l.map f) = (firstOccDedup l).map f := by
  have h := foldl_insertIfNew_map f l [] ?_
  · simpa [firstOccDedup] using h
  · intro a ha b hb hf
    rcases ha with ha | ha
    · rcases hb with hb | hb
      · exact hinj a ha b hb hf
      · exact absurd hb (List.not_mem_nil b)
    · exact absurd ha (List.not_mem_nil a)

/-- With pairwise-distinct ids, `find?` on the id returns exactly the member
session carrying that id. -/
theorem find?_id_eq_of_nodup {l : List Session} (hnd : (l.map Session.id).Nodup)
    {s : Session} (hs : s ∈ l) {k : String} (hid : s.id = k) :
    l.find? (fun t => t.id == k) = some s := by
  induction l with
  | nil => cases hs
  | cons t l ih =>
    rw [List.map_cons, List.nodup_cons] at hnd
    by_cases ht : t.id = k
    · have hts : s = t := by
        rcases List.mem_cons.mp hs with rfl | hs'
        · rfl
        · exfalso
          apply hnd.1
          rw [ht, ← hid]
          exact List.mem_map_of_mem Session.id hs'
      subst hts
      simp [List.find?_cons, ht]
    · rcases List.mem_cons.mp hs with rfl | hs'
      · exact absurd hid ht
      · have hrec := ih hnd.2 hs'
        simp [List.find?_cons, ht, hrec]

/-- With pairwise-distinct ids, splicing out the first id match is the same
as filtering out every id match. -/
theorem eraseP_id_eq_filter {l : List Session} (hnd : (l.map Session.id).Nodup) (k : String) :
    l.eraseP (fun s => s.id == k) = l.filter (fun s => s.id != k) := by
  induction l with
  | nil => rfl
  | cons t l ih =>
    rw [List.map_cons, List.nodup_cons] at hnd
    by_cases ht : t.id = k
    · have hl : l.filter (fun s => s.id != k) = l := by
        apply List.filter_eq_self.mpr
        intro u hu
        simp only [bne_iff_ne, ne_eq, decide_eq_true_eq]
        intro huk
        apply hnd.1
        rw [ht, ← huk]
        exact List.mem_map_of_mem Session.id hu
      simp [List.eraseP_cons, List.filter_cons, ht, hl]
    · simp [List.eraseP_cons, List.filter_cons, ht, ih hnd.2]

/-- Decomposition of `updateFirst` around the session returned by `find?`. -/
theorem updateFirst_decomp {p : Session → Bool} {f : Session → Session} :
    ∀ {l : List Session} {s : Session}, l.find? p = some s →
      ∃ l1 l2, l = l1 ++ s :: l2 ∧ (∀ t ∈ l1, p t = false) ∧
        updateFirst p f l = l1 ++ f s :: l2 := by
  intro l
  induction l with
  | nil => intro s h; cases h
  | cons t l ih =>
    intro s h
    by_cases ht : p t
    · have hts : t = s := by simpa [List.find?_cons, ht] using h
      subst hts
      refine ⟨[], l, rfl, ?_, ?_⟩
      · intro u hu
        cases hu
      · simp [updateFirst, ht]
    · have h' : l.find? p = some s := by simpa [List.find?_cons, ht] using h
      obtain ⟨l1, l2, hl, hl1, hu⟩ := ih h'
      refine ⟨t :: l1, l2, by rw [hl]; rfl, ?_, ?_⟩
      · intro u hu'
        rcases List.mem_cons.mp hu' with rfl | h2
        · exact Bool.not_eq_true _ ▸ ht
        · exact hl1 u h2
      · simp only [updateFirst, if_neg ht, hu]
        rfl

/-- Every element of `updateFirst p f l` is an element of `l` or the image
under `f` of an element of `l`. -/
theorem mem_updateFirst {p : Session → Bool} {f : Session → Session} :
    ∀ {l : List Session} {s' : Session}, s' ∈ updateFirst p f l →
      s' ∈ l ∨ ∃ s ∈ l, s' = f s := by
  intro l
  induction l with
  | nil => intro s' h; cases h
  | cons t l ih =>
    intro s' h
    by_cases ht : p t
    · simp only [updateFirst, if_pos ht] at h
      rcases List.mem_cons.mp h with rfl | h2
      · exact Or.inr ⟨t, List.mem_cons_self _ _, rfl⟩
      · exact Or.inl (List.mem_cons_of_mem _ h2)
    · simp only [updateFirst, if_neg ht] at h
      rcases List.mem_cons.mp h with rfl | h2
      · exact Or.inl (List.mem_cons_self _ _)
      · rcases ih h2 with h3 | ⟨s, hs, rfl⟩
        · exact Or.inl (List.mem_cons_of_mem _ h3)
        · exact Or.inr ⟨s, List.mem_cons_of_mem _ hs, rfl⟩

/-- Splitting a character list at an underscore is unambiguous when the left
part contains no underscore. -/
theorem append_underscore_inj :
    ∀ {l1 : List Char} {m1 : List Char} {l2 : List Char} {m2 : List Char},
      '_' ∉ l1 → '_' ∉ l2 → l1 ++ '_' :: m1 = l2 ++ '_' :: m2 → l1 = l2 ∧ m1 = m2 := by
  intro l1
  induction l1 with
  | nil =>
    intro m1 l2 m2 _ h2 h
    cases l2 with
    | nil => simpa using h
    | cons c l2 =>
      exfalso
      rw [List.nil_append, List.cons_append, List.cons.injEq] at h
      apply h2
      rw [← h.1]
      exact List.mem_cons_self _ _
  | cons c l1 ih =>
    intro m1 l2 m2 h1 h2 h
    cases l2 with
    | nil =>
      exfalso
      rw [List.nil_append, List.cons_append, List.cons.injEq] at h
      apply h1
      rw [h.1]
      exact List.mem_cons_self _ _
    | cons d l2 =>
      simp only [List.cons_append, List.cons.injEq] at h
      have h1' : '_' ∉ l1 := fun hh => h1 (List.mem_cons_of_mem _ hh)
      have h2' : '_' ∉ l2 := fun hh => h2 (List.mem_cons_of_mem _ hh)
      obtain ⟨ha, hb⟩ := ih h1' h2' h.2
      exact ⟨by rw [h.1, ha], hb⟩

/-- The grouping key determines the (sessionId, studentName) pair as soon as
the session ids contain no underscore. -/
theorem key_pair_inj {a b c d : String} (ha : '_' ∉ a.data) (hc : '_' ∉ c.data)
    (h : a ++ "_" ++ b = c ++ "_" ++ d) : a = c ∧ b = d := by
  rw [String.ext_iff] at h
  simp only [String.data_append] at h
  rw [List.append_assoc, List.append_assoc] at h
  have hu : ("_" : String).data ++ b.data = '_' :: b.data := rfl
  have hv : ("_" : String).data ++ d.data = '_' :: d.data := rfl
  rw [hu, hv] at h
  obtain ⟨h1, h2⟩ := append_underscore_inj ha hc h
  exact ⟨String.ext_iff.mpr h1, String.ext_iff.mpr h2⟩

/-! ### Characterisation of the aggregation loop -/

/-- Sum of a list of JS numbers, starting from the 0 the entry is created
with. -/
def jsum (l : List JsNum) : JsNum :=
  l.foldl jadd (JsNum.num 0)

/-- The submissions of `raw` that share the grouping key `k`. -/
def keyGroup (raw : List Submission) (k : String) : List Submission :=
  raw.filter (fun s => subKey s == k)

/-- The aggregate entry a group of submissions folds into: identifiers of
the first submission of the group, criterion-wise sums and the count. -/
def entryOfGroup (g : List Submission) : AggEntry :=
  { sessionId := (g.head?.map Submission.sessionId).getD ""
  , studentName := (g.head?.map Submission.studentName).getD ""
  , sums := fun i => jsum (g.map (fun s => s.scores i))
  , count := g.length }

/-- The aggregate entry for key `k` described directly from `raw`. -/
def entryFor (raw : List Submission) (k : String) : AggEntry :=
  entryOfGroup (keyGroup raw k)

/-- Closed form of the whole aggregates dictionary: one own entry per
distinct non-inherited key, in first-occurrence order; keys that collide
with an `Object.prototype` property never get an own entry. -/
def mkAggs (raw : List Submission) : List (String × AggEntry) :=
  (firstOccDedup ((raw.map subKey).filter (fun k => !(protoKeys.contains k)))).map
    (fun k => (k, entryFor raw k))

theorem jsum_append_singleton (l : List JsNum) (a : JsNum) :
    jsum (l ++ [a]) = jadd (jsum l) a := by
  unfold jsum
  rw [List.foldl_append]
  rfl

theorem keyGroup_append_singleton (raw : List Submission) (sub : Submission) (k : String) :
    keyGroup (raw ++ [sub]) k
      = keyGroup raw k ++ (if subKey sub = k then [sub] else []) := by
  unfold keyGroup
  rw [List.filter_append, List.filter_cons]
  by_cases h : subKey sub = k
  · simp [h]
  · simp [h]

theorem entryFor_append_other (raw : List Submission) (sub : Submission) (k : String)
    (h : subKey sub ≠ k) :
    entryFor (raw ++ [sub]) k = entryFor raw k := by
  unfold entryFor
  rw [keyGroup_append_singleton, if_neg h, List.append_nil]

theorem entryOfGroup_append (g : List Submission) (sub : Submission) (hne : g ≠ []) :
    entryOfGroup (g ++ [sub]) = bumpEntry sub (entryOfGroup g) := by
  obtain ⟨x, g', rfl⟩ : ∃ x g', g = x :: g' := by
    cases g with
    | nil => exact absurd rfl hne
    | cons x g' => exact ⟨x, g', rfl⟩
  have hsums : ∀ i : Fin 18,
      jsum (((x :: g') ++ [sub]).map (fun s => s.scores i))
        = jadd (jsum ((x :: g').map (fun s => s.scores i))) (sub.scores i) := by
    intro i
    rw [List.map_append]
    exact jsum_append_singleton _ _
  unfold entryOfGroup bumpEntry
  simp only [List.cons_append, List.head?_cons, Option.map_some', Option.getD_some,
    AggEntry.mk.injEq, List.length_cons, List.length_append, List.length_singleton]
  refine ⟨trivial, trivial, ?_, by simp⟩
  funext i
  simpa using hsums i

theorem aggStep_mkAggs (processed : List Submission) (sub : Submission) :
    aggStep (mkAggs processed) sub = mkAggs (processed ++ [sub]) := by
  by_cases hp : protoKeys.contains (subKey sub) = true
  · have hguard : ((mkAggs processed).any (fun p => p.1 == subKey sub)
        || protoKeys.contains (subKey sub)) = true := by
      rw [hp, Bool.or_true]
    have hknot : ∀ k ∈ firstOccDedup ((processed.map subKey).filter
        (fun k => !(protoKeys.contains k))), subKey sub ≠ k := by
      intro k hk heq
      have hk2 := (List.mem_filter.mp (mem_firstOccDedup.mp hk)).2
      rw [← heq, hp] at hk2
      simp at hk2
    have hpmem : subKey sub ∈ protoKeys := List.elem_iff.mp hp
    have hkeys2 : (((processed ++ [sub]).map subKey).filter
          (fun k => !(protoKeys.contains k)))
        = ((processed.map subKey).filter (fun k => !(protoKeys.contains k))) := by
      have hnil : List.filter (fun k => !(protoKeys.contains k)) [subKey sub] = [] := by
        simp [List.filter_cons, hpmem]
      rw [List.map_append, List.map_singleton, List.filter_append, hnil, List.append_nil]
    unfold aggStep
    rw [if_pos hguard]
    unfold mkAggs
    rw [hkeys2, List.map_map]
    apply List.map_congr_left
    intro k hk
    have hne := hknot k hk
    have hbeq : (k == subKey sub) = false := by
      simp only [beq_eq_false_iff_ne, ne_eq]
      exact fun h => hne h.symm
    simp only [Function.comp_apply, hbeq, Bool.false_eq_true, if_false]
    rw [entryFor_append_other _ _ _ hne]
  · have hp2 : protoKeys.contains (subKey sub) = false := by
      cases hpc : protoKeys.contains (subKey sub)
      · rfl
      · exact absurd hpc hp
    have hpnot : subKey sub ∉ protoKeys := fun hm => hp (List.elem_iff.mpr hm)
    have hkeys3 : (((processed ++ [sub]).map subKey).filter
          (fun k => !(protoKeys.contains k)))
        = ((processed.map subKey).filter (fun k => !(protoKeys.contains k)))
          ++ [subKey sub] := by
      have hone : List.filter (fun k => !(protoKeys.contains k)) [subKey sub]
          = [subKey sub] := by
        simp [List.filter_cons, hpnot]
      rw [List.map_append, List.map_singleton, List.filter_append, hone]
    by_cases hk : subKey sub ∈ firstOccDedup ((processed.map subKey).filter
        (fun k => !(protoKeys.contains k)))
    · have hany : (mkAggs processed).any (fun p => p.1 == subKey sub) = true := by
        rw [List.any_eq_true]
        refine ⟨(subKey sub, entryFor processed (subKey sub)), ?_, by simp⟩
        exact List.mem_map_of_mem (fun k => (k, entryFor processed k)) hk
      have hguard : ((mkAggs processed).any (fun p => p.1 == subKey sub)
          || protoKeys.contains (subKey sub)) = true := by
        rw [hany, Bool.true_or]
      unfold aggStep
      rw [if_pos hguard]
      unfold mkAggs
      rw [hkeys3, firstOccDedup_append_singleton]
      unfold insertIfNew
      rw [if_pos hk, List.map_map]
      apply List.map_congr_left
      intro k hkmem
      by_cases hkk : k = subKey sub
      · subst hkk
        have hgrp : keyGroup (processed ++ [sub]) (subKey sub)
            = keyGroup processed (subKey sub) ++ [sub] := by
          rw [keyGroup_append_singleton, if_pos rfl]
        have hne : keyGroup processed (subKey sub) ≠ [] := by
          have hk2 : subKey sub ∈ (processed.map subKey).filter
              (fun k => !(protoKeys.contains k)) := mem_firstOccDedup.mp hk
          have hk3 : subKey sub ∈ processed.map subKey := (List.mem_filter.mp hk2).1
          rcases List.mem_map.mp hk3 with ⟨s, hs, hsk⟩
          exact List.ne_nil_of_mem (List.mem_filter.mpr ⟨hs, by simp [hsk]⟩)
        simp only [Function.comp_apply, beq_self_eq_true, if_true]
        rw [Prod.mk.injEq]
        refine ⟨rfl, ?_⟩
        unfold entryFor
        rw [hgrp, entryOfGroup_append _ _ hne]
      · have hbeq : (k == subKey sub) = false := by
          simp [hkk]
        simp only [Function.comp_apply, hbeq, Bool.false_eq_true, if_false]
        rw [entryFor_append_other _ _ _ (fun h => hkk h.symm)]
    · have hany : ¬ ((mkAggs processed).any (fun p => p.1 == subKey sub) = true) := by
        rw [List.any_eq_true]
        rintro ⟨p, hpmem, hpk2⟩
        rcases List.mem_map.mp hpmem with ⟨k, hkmem, rfl⟩
        have hkeq : k = subKey sub := by simpa using hpk2
        exact hk (hkeq ▸ hkmem)
      have hguard : ¬ (((mkAggs processed).any (fun p => p.1 == subKey sub)
          || protoKeys.contains (subKey sub)) = true) := by
        rw [hp2, Bool.or_false]
        exact hany
      unfold aggStep
      rw [if_neg hguard]
      unfold mkAggs
      rw [hkeys3, firstOccDedup_append_singleton]
      unfold insertIfNew
      rw [if_neg hk, List.map_append]
      congr 1
      · apply List.map_congr_left
        intro k hkmem
        have hkk : subKey sub ≠ k := fun h => hk (h ▸ hkmem)
        rw [entryFor_append_other _ _ _ hkk]
      · have hgrp : keyGroup (processed ++ [sub]) (subKey sub) = [sub] := by
          rw [keyGroup_append_singleton, if_pos rfl]
          have hnil : keyGroup processed (subKey sub) = [] := by
            unfold keyGroup
            rw [List.filter_eq_nil_iff]
            intro s hs hbeq
            have hsk : subKey s = subKey sub := by simpa using hbeq
            apply hk
            apply mem_firstOccDedup.mpr
            apply List.mem_filter.mpr
            refine ⟨hsk ▸ List.mem_map_of_mem subKey hs, ?_⟩
            rw [hp2]
            rfl
          rw [hnil, List.nil_append]
        rw [List.map_singleton, entryFor, hgrp]
        rfl

theorem foldl_aggStep (rest : List Submission) :
    ∀ processed : List Submission,
      rest.foldl aggStep (mkAggs processed) = mkAggs (processed ++ rest) := by
  induction rest with
  | nil => intro p; rw [List.foldl_nil, List.append_nil]
  | cons sub rest ih =>
    intro p
    rw [List.foldl_cons, aggStep_mkAggs, ih (p ++ [sub]), List.append_assoc]
    rfl

/-- The aggregates dictionary built by the forEach loop equals its closed
form: one entry per distinct key in first-occurrence order, carrying the
identifiers of the group's first submission, the criterion-wise sums and
the group size. -/
theorem aggregatesOf_eq (raw : List Submission) : aggregatesOf raw = mkAggs raw := by
  have h := foldl_aggStep raw []
  simpa [aggregatesOf, mkAggs, firstOccDedup] using h

/-! ### Claims -/

/-- C7: an authenticated create request with an empty or absent name fails
with 400 (`Session name is required.`) and leaves the store unchanged;
otherwise exactly one session with the fresh id, the caller's campus and
empty jury/student lists is appended, persisted and returned, and a fresh
id keeps the store's ids pairwise distinct. -/
theorem createSession_spec (db : DB) (campus freshId : String) (name : Option String) :
    ((name = none ∨ name = some "") →
      createSession db campus freshId name
        = (ApiResult.badRequest "Session name is required.", db)) ∧
    (∀ n : String, name = some n → n ≠ "" →
      createSession db campus freshId name
        = (ApiResult.ok "Session created successfully!"
            (some { id := freshId, name := n, campus := campus, juries := [], students := [] }),
           { db with sessions := db.sessions ++
              [{ id := freshId, name := n, campus := campus, juries := [], students := [] }] })
      ∧ (freshId ∉ db.sessions.map Session.id → uniqueIds db →
          uniqueIds { db with sessions := db.sessions ++
            [{ id := freshId, name := n, campus := campus, juries := [], students := [] }] })) := by
  constructor
  · rintro (rfl | rfl)
    · rfl
    · simp [createSession]
  · rintro n rfl hn
    constructor
    · simp [createSession, hn]
    · intro hfresh hu
      have hnd : (db.sessions.map Session.id).Nodup := hu
      show (List.map Session.id (db.sessions ++ [_])).Nodup
      rw [List.map_append, List.nodup_append]
      refine ⟨hnd, List.nodup_singleton _, ?_⟩
      intro a ha hb
      have hb' : a = freshId := by simpa using hb
      exact hfresh (hb' ▸ ha)

/-- Witness for C7 at a concrete store: empty name is rejected with the
store unchanged, and a proper name creates exactly the expected session. -/
theorem createSession_spec_witness :
    createSession (DB.mk [] []) "Paris" "id1" (some "")
      = (ApiResult.badRequest "Session name is required.", DB.mk [] []) ∧
    createSession (DB.mk [] []) "Paris" "id1" (some "C#22")
      = (ApiResult.ok "Session created successfully!"
          (some (Session.mk "id1" "C#22" "Paris" [] [])),
         DB.mk [Session.mk "id1" "C#22" "Paris" [] []] []) := by
  constructor
  · exact (createSession_spec (DB.mk [] []) "Paris" "id1" (some "")).1 (Or.inr rfl)
  · exact ((createSession_spec (DB.mk [] []) "Paris" "id1" (some "C#22")).2 "C#22" rfl
      (by decide)).1

/-- C10: for add-jury and add-student the missing-name 400 is decided
before the existence and ownership checks: with an absent or empty name the
result is 400 with the store unchanged, for every store — in particular
also when the target id does not exist or the session belongs to another
campus. -/
theorem addName_validation_first (db : DB) (campus sessionId : String) (name : Option String) :
    (name = none ∨ name = some "") →
      addJury db campus sessionId name
        = (ApiResult.badRequest "Jury name is required.", db) ∧
      addStudent db campus sessionId name
        = (ApiResult.badRequest "Student name is required.", db) := by
  rintro (rfl | rfl)
  · exact ⟨rfl, rfl⟩
  · constructor
    · simp [addJury]
    · simp [addStudent]

/-- Witness for C10: empty jury name on a foreign session yields 400 (not
403), and an absent student name on a nonexistent session yields 400 (not
404). -/
theorem addName_validation_first_witness :
    addJury (DB.mk [Session.mk "s1" "S" "A" [] []] []) "B" "s1" (some "")
      = (ApiResult.badRequest "Jury name is required.",
         DB.mk [Session.mk "s1" "S" "A" [] []] []) ∧
    addStudent (DB.mk [] []) "A" "nope" none
      = (ApiResult.badRequest "Student name is required.", DB.mk [] []) := by
  constructor
  · exact (addName_validation_first (DB.mk [Session.mk "s1" "S" "A" [] []] []) "B" "s1"
      (some "") (Or.inr rfl)).1
  · exact (addName_validation_first (DB.mk [] []) "A" "nope" none (Or.inl rfl)).2

/-- C2: delete returns 404 when no session has the id; 403 with the store
unchanged when the session belongs to another campus; otherwise 200,
exactly that session is removed, every submission with that sessionId is
removed (the cascade), and no submission referencing the id remains. -/
theorem deleteSession_spec (db : DB) (campus sessionId : String) (hu : uniqueIds db) :
    ((∀ s ∈ db.sessions, s.id ≠ sessionId) →
      deleteSession db campus sessionId = (ApiResult.notFound "Session not found.", db)) ∧
    (∀ s ∈ db.sessions, s.id = sessionId →
      (s.campus ≠ campus →
        deleteSession db campus sessionId
          = (ApiResult.forbidden "Forbidden - Session belongs to another campus.", db)) ∧
      (s.campus = campus →
        deleteSession db campus sessionId
          = (ApiResult.ok "Session deleted successfully." none,
             { sessions := db.sessions.filter (fun t => t.id != sessionId),
               submissions := db.submissions.filter (fun sub => sub.sessionId != sessionId) })
        ∧ ∀ sub ∈ (deleteSession db campus sessionId).2.submissions,
            sub.sessionId ≠ sessionId)) := by
  constructor
  · intro h
    have hfind : db.sessions.find? (fun s => s.id == sessionId) = none := by
      rw [List.find?_eq_none]
      intro s hs
      simp [h s hs]
    simp only [deleteSession, hfind]
  · intro s hs hsid
    have hfind : db.sessions.find? (fun t => t.id == sessionId) = some s :=
      find?_id_eq_of_nodup hu hs hsid
    constructor
    · intro hc
      simp only [deleteSession, hfind]
      rw [if_pos hc]
    · intro hc
      have hnd : (db.sessions.map Session.id).Nodup := hu
      have heq : deleteSession db campus sessionId
          = (ApiResult.ok "Session deleted successfully." none,
             { sessions := db.sessions.filter (fun t => t.id != sessionId),
               submissions := db.submissions.filter (fun sub => sub.sessionId != sessionId) }) := by
        simp only [deleteSession, hfind]
        rw [if_neg (fun h => h hc), eraseP_id_eq_filter hnd]
      refine ⟨heq, ?_⟩
      rw [heq]
      intro sub hsub
      have h2 := (List.mem_filter.mp hsub).2
      simpa using h2

/-- Witness for C2 at a concrete store: deleting `s1` removes that session
and its submission and keeps the unrelated session and submission. -/
theorem deleteSession_spec_witness :
    deleteSession
        (DB.mk [Session.mk "s1" "S" "Paris" ["J"] ["F"], Session.mk "s2" "T" "Lille" [] []]
          [Submission.mk "s1" "J" "F" (fun _ => JsNum.num 1) "",
           Submission.mk "s2" "K" "G" (fun _ => JsNum.num 2) ""])
        "Paris" "s1"
      = (ApiResult.ok "Session deleted successfully." none,
         DB.mk [Session.mk "s2" "T" "Lille" [] []]
           [Submission.mk "s2" "K" "G" (fun _ => JsNum.num 2) ""]) := by
  have h := ((deleteSession_spec
      (DB.mk [Session.mk "s1" "S" "Paris" ["J"] ["F"], Session.mk "s2" "T" "Lille" [] []]
        [Submission.mk "s1" "J" "F" (fun _ => JsNum.num 1) "",
         Submission.mk "s2" "K" "G" (fun _ => JsNum.num 2) ""])
      "Paris" "s1" (by decide)).2
      (Session.mk "s1" "S" "Paris" ["J"] ["F"]) (by decide) rfl).2 rfl
  exact h.1.trans (by decide)

/-- C3: submit fails 400 (`Session does not exist.`) when the sessionId is
unknown, 403 on a foreign campus, 400 when the jury or student is not
listed — each failure leaving the store unchanged — and otherwise appends
exactly one parsed submission. -/
theorem submitEvaluation_spec (db : DB) (campus : String) (r : SubmitRequest)
    (hu : uniqueIds db) :
    ((∀ s ∈ db.sessions, s.id ≠ r.sessionId) →
      submitEvaluation db campus r = (ApiResult.badRequest "Session does not exist.", db)) ∧
    (∀ s ∈ db.sessions, s.id = r.sessionId →
      (s.campus ≠ campus →
        submitEvaluation db campus r
          = (ApiResult.forbidden "Forbidden - Session belongs to another campus.", db)) ∧
      (s.campus = campus → r.juryName ∉ s.juries →
        submitEvaluation db campus r
          = (ApiResult.badRequest "Jury does not exist in this session.", db)) ∧
      (s.campus = campus → r.juryName ∈ s.juries → r.studentName ∉ s.students →
        submitEvaluation db campus r
          = (ApiResult.badRequest "Student does not exist in this session.", db)) ∧
      (s.campus = campus → r.juryName ∈ s.juries → r.studentName ∈ s.students →
        submitEvaluation db campus r
          = (ApiResult.ok "Evaluation submitted successfully!" none,
             { db with submissions := db.submissions ++ [mkSubmission r] }))) := by
  constructor
  · intro h
    have hfind : db.sessions.find? (fun s => s.id == r.sessionId) = none := by
      rw [List.find?_eq_none]
      intro s hs
      simp [h s hs]
    simp only [submitEvaluation, hfind]
  · intro s hs hsid
    have hfind : db.sessions.find? (fun t => t.id == r.sessionId) = some s :=
      find?_id_eq_of_nodup hu hs hsid
    refine ⟨?_, ?_, ?_, ?_⟩
    · intro hc
      simp only [submitEvaluation, hfind]
      rw [if_pos hc]
    · intro hc hj
      have hjc : ¬ (s.juries.contains r.juryName = true) := by
        simpa [List.elem_iff] using hj
      simp only [submitEvaluation, hfind]
      rw [if_neg (fun h => h hc), if_pos hjc]
    · intro hc hj hst
      have hjc : s.juries.contains r.juryName = true := by
        simpa [List.elem_iff] using hj
      have hstc : ¬ (s.students.contains r.studentName = true) := by
        simpa [List.elem_iff] using hst
      simp only [submitEvaluation, hfind]
      rw [if_neg (fun h => h hc), if_neg (not_not_intro hjc), if_pos hstc]
    · intro hc hj hst
      have hjc : s.juries.contains r.juryName = true := by
        simpa [List.elem_iff] using hj
      have hstc : s.students.contains r.studentName = true := by
        simpa [List.elem_iff] using hst
      simp only [submitEvaluation, hfind]
      rw [if_neg (fun h => h hc), if_neg (not_not_intro hjc),
        if_neg (not_not_intro hstc)]

/-- C5: remove-jury and remove-student filter out every list entry equal to
the given name (not only the first match), and removing an absent name
returns success with the whole store unchanged. -/
theorem removeName_spec (db : DB) (campus sessionId : String) (hu : uniqueIds db) :
    ∀ s ∈ db.sessions, s.id = sessionId → s.campus = campus →
      (∀ nameQ : Option String,
        removeJury db campus sessionId nameQ
          = (ApiResult.ok "Jury deleted successfully."
               (some { s with juries := s.juries.filter (fun j => some j != nameQ) }),
             { db with sessions :=
                 (updateFirst (fun t => t.id == sessionId)
                   (fun _ => { s with juries := s.juries.filter (fun j => some j != nameQ) })
                   db.sessions) }) ∧
        removeStudent db campus sessionId nameQ
          = (ApiResult.ok "Student deleted successfully."
               (some { s with students := s.students.filter (fun st => some st != nameQ) }),
             { db with sessions :=
                 (updateFirst (fun t => t.id == sessionId)
                   (fun _ => { s with students := s.students.filter (fun st => some st != nameQ) })
                   db.sessions) })) ∧
      (∀ n : String,
        n ∉ s.juries.filter (fun j => some j != some n) ∧
        n ∉ s.students.filter (fun st => some st != some n)) ∧
      (∀ n : String, n ∉ s.juries →
        removeJury db campus sessionId (some n)
          = (ApiResult.ok "Jury deleted successfully." (some s), db)) ∧
      (∀ n : String, n ∉ s.students →
        removeStudent db campus sessionId (some n)
          = (ApiResult.ok "Student deleted successfully." (some s), db)) := by
  intro s hs hsid hc
  have hfind : db.sessions.find? (fun t => t.id == sessionId) = some s :=
    find?_id_eq_of_nodup hu hs hsid
  have hgen : ∀ nameQ : Option String,
      removeJury db campus sessionId nameQ
        = (ApiResult.ok "Jury deleted successfully."
             (some { s with juries := s.juries.filter (fun j => some j != nameQ) }),
           { db with sessions :=
               (updateFirst (fun t => t.id == sessionId)
                 (fun _ => { s with juries := s.juries.filter (fun j => some j != nameQ) })
                 db.sessions) }) := by
    intro nameQ
    simp only [removeJury, hfind]
    rw [if_neg (fun h => h hc)]
  have hgen2 : ∀ nameQ : Option String,
      removeStudent db campus sessionId nameQ
        = (ApiResult.ok "Student deleted successfully."
             (some { s with students := s.students.filter (fun st => some st != nameQ) }),
           { db with sessions :=
               (updateFirst (fun t => t.id == sessionId)
                 (fun _ => { s with students := s.students.filter (fun st => some st != nameQ) })
                 db.sessions) }) := by
    intro nameQ
    simp only [removeStudent, hfind]
    rw [if_neg (fun h => h hc)]
  have hlid : updateFirst (fun t => t.id == sessionId) (fun _ => s) db.sessions
      = db.sessions := by
    obtain ⟨l1, l2, hl, _, hupd⟩ :=
      @updateFirst_decomp (fun t => t.id == sessionId) (fun _ => s) db.sessions s hfind
    rw [hupd, hl]
  refine ⟨fun nameQ => ⟨hgen nameQ, hgen2 nameQ⟩, ?_, ?_, ?_⟩
  · intro n
    constructor
    · intro hmem
      have h2 := (List.mem_filter.mp hmem).2
      simp at h2
    · intro hmem
      have h2 := (List.mem_filter.mp hmem).2
      simp at h2
  · intro n hn
    have hfil : s.juries.filter (fun j => some j != some n) = s.juries := by
      apply List.filter_eq_self.mpr
      intro j hj
      simp only [bne_iff_ne, ne_eq, Option.some.injEq, decide_eq_true_eq]
      intro hj2
      exact hn (hj2 ▸ hj)
    have heta : ({ s with juries := s.juries.filter (fun j => some j != some n) } : Session)
        = s := by
      rw [hfil]
    rw [hgen (some n), heta, hlid]
  · intro n hn
    have hfil : s.students.filter (fun st => some st != some n) = s.students := by
      apply List.filter_eq_self.mpr
      intro st hst
      simp only [bne_iff_ne, ne_eq, Option.some.injEq, decide_eq_true_eq]
      intro hst2
      exact hn (hst2 ▸ hst)
    have heta : ({ s with students := s.students.filter (fun st => some st != some n) } : Session)
        = s := by
      rw [hfil]
    rw [hgen2 (some n), heta, hlid]

/-- Witness for C5 at a concrete store: removing `J` deletes both copies of
`J` while keeping `K`, and removing an absent name leaves everything
unchanged with a success response. -/
theorem removeName_spec_witness :
    removeJury (DB.mk [Session.mk "s1" "S" "Paris" ["J", "K", "J"] ["F"]] []) "Paris" "s1"
        (some "J")
      = (ApiResult.ok "Jury deleted successfully."
           (some (Session.mk "s1" "S" "Paris" ["K"] ["F"])),
         DB.mk [Session.mk "s1" "S" "Paris" ["K"] ["F"]] []) ∧
    removeStudent (DB.mk [Session.mk "s1" "S" "Paris" ["J", "K", "J"] ["F"]] []) "Paris" "s1"
        (some "absent")
      = (ApiResult.ok "Student deleted successfully."
           (some (Session.mk "s1" "S" "Paris" ["J", "K", "J"] ["F"])),
         DB.mk [Session.mk "s1" "S" "Paris" ["J", "K", "J"] ["F"]] []) := by
  have h := removeName_spec (DB.mk [Session.mk "s1" "S" "Paris" ["J", "K", "J"] ["F"]] [])
    "Paris" "s1" (by decide) (Session.mk "s1" "S" "Paris" ["J", "K", "J"] ["F"])
    (by decide) rfl rfl
  constructor
  · exact ((h.1 (some "J")).1).trans (by decide)
  · exact h.2.2.2 "absent" (by decide)

/-- C6: a submit request that passes the session, ownership, jury and
student checks succeeds, appending exactly one submission whose score
fields are each the `parseFloat` of their raw input; a field whose raw
input fails to parse is stored as the NaN sentinel rather than the request
being rejected. -/
theorem submit_nan_spec (db : DB) (campus : String) (r : SubmitRequest) (hu : uniqueIds db) :
    ∀ s ∈ db.sessions, s.id = r.sessionId → s.campus = campus →
      r.juryName ∈ s.juries → r.studentName ∈ s.students →
      submitEvaluation db campus r
        = (ApiResult.ok "Evaluation submitted successfully!" none,
           { db with submissions := db.submissions ++ [mkSubmission r] })
      ∧ (∀ i : Fin 18, (mkSubmission r).scores i = parseFloat (r.rawScores i))
      ∧ (∀ i : Fin 18, parseFloat (r.rawScores i) = JsNum.nan →
           (mkSubmission r).scores i = JsNum.nan) := by
  intro s hs hsid hc hj hst
  have hfind : db.sessions.find? (fun t => t.id == r.sessionId) = some s :=
    find?_id_eq_of_nodup hu hs hsid
  have hjc : s.juries.contains r.juryName = true := by
    simpa [List.elem_iff] using hj
  have hstc : s.students.contains r.studentName = true := by
    simpa [List.elem_iff] using hst
  refine ⟨?_, fun i => rfl, fun i h => h⟩
  simp only [submitEvaluation, hfind]
  rw [if_neg (fun h => h hc), if_neg (not_not_intro hjc), if_neg (not_not_intro hstc)]

/-- Witness for C6 at a concrete store: raw score `"abc"` does not parse,
the submission is accepted anyway, and the stored criterion value is the
NaN sentinel. -/
theorem submit_nan_spec_witness :
    submitEvaluation (DB.mk [Session.mk "s1" "S" "Paris" ["J"] ["F"]] []) "Paris"
        (SubmitRequest.mk "s1" "J" "F" (fun _ => "abc") none)
      = (ApiResult.ok "Evaluation submitted successfully!" none,
         DB.mk [Session.mk "s1" "S" "Paris" ["J"] ["F"]]
           [mkSubmission (SubmitRequest.mk "s1" "J" "F" (fun _ => "abc") none)]) ∧
    (mkSubmission (SubmitRequest.mk "s1" "J" "F" (fun _ => "abc") none)).scores 0
      = JsNum.nan := by
  have h := submit_nan_spec (DB.mk [Session.mk "s1" "S" "Paris" ["J"] ["F"]] []) "Paris"
    (SubmitRequest.mk "s1" "J" "F" (fun _ => "abc") none) (by decide)
    (Session.mk "s1" "S" "Paris" ["J"] ["F"]) (by decide) rfl rfl (by decide) (by decide)
  exact ⟨h.1, h.2.2 0 (by decide)⟩

/-- C9: every entry of the aggregates dictionary built inside
`resultsWithAverages` has been folded from at least one submission, so its
count is at least 1 when the per-criterion sums are divided by it. -/
theorem aggregate_count_pos (db : DB) (campus : String) :
    ∀ p ∈ aggregatesOf ((resultsWithAverages db campus).1.rawSubmissions),
      1 ≤ p.2.count := by
  intro p hp
  rw [aggregatesOf_eq] at hp
  rcases List.mem_map.mp hp with ⟨k, hk, rfl⟩
  have hk2 : k ∈ (((resultsWithAverages db campus).1.rawSubmissions).map subKey).filter
      (fun k => !(protoKeys.contains k)) := mem_firstOccDedup.mp hk
  have hk3 : k ∈ ((resultsWithAverages db campus).1.rawSubmissions).map subKey :=
    (List.mem_filter.mp hk2).1
  rcases List.mem_map.mp hk3 with ⟨s, hs, rfl⟩
  have hmem : s ∈ keyGroup ((resultsWithAverages db campus).1.rawSubmissions) (subKey s) :=
    List.mem_filter.mpr ⟨hs, by simp⟩
  exact List.length_pos.mpr (List.ne_nil_of_mem hmem)

/-- Witness for C9 at a concrete store with one submission: the single
aggregate entry has count at least 1. -/
theorem aggregate_count_pos_witness :
    1 ≤ (entryFor
        ((resultsWithAverages (DB.mk [Session.mk "s1" "S" "X" ["J"] ["F"]]
            [Submission.mk "s1" "J" "F" (fun _ => JsNum.num 1) ""]) "X").1.rawSubmissions)
        "s1_F").count := by
  refine aggregate_count_pos
    (DB.mk [Session.mk "s1" "S" "X" ["J"] ["F"]]
      [Submission.mk "s1" "J" "F" (fun _ => JsNum.num 1) ""]) "X"
    ("s1_F", entryFor
        ((resultsWithAverages (DB.mk [Session.mk "s1" "S" "X" ["J"] ["F"]]
            [Submission.mk "s1" "J" "F" (fun _ => JsNum.num 1) ""]) "X").1.rawSubmissions)
        "s1_F") ?_
  rw [aggregatesOf_eq]
  apply List.mem_map_of_mem
  rw [mem_firstOccDedup]
  decide

/-- The (sessionId, studentName) pair a submission is grouped under. -/
def subPair (s : Submission) : String × String :=
  (s.sessionId, s.studentName)

/-- The grouping key as a function of the pair. -/
def pairKey (p : String × String) : String :=
  p.1 ++ "_" ++ p.2

/-- Core of C1: over a raw submission list whose session ids are free of
underscores and whose grouping keys avoid the `Object.prototype` property
names, the aggregate rows are in bijection, in first-occurrence order, with
the distinct (sessionId, studentName) pairs, and each row's per-criterion
average is the criterion sum over the pair's submissions divided by their
number. -/
theorem mkAggs_pairs (raw : List Submission)
    (hid : ∀ a ∈ raw, '_' ∉ a.sessionId.data)
    (hpk : ∀ a ∈ raw, subKey a ∉ protoKeys) :
    (((mkAggs raw).map (fun p => mkRow p.2)).map
        (fun row => (row.sessionId, row.studentName))
      = firstOccDedup (raw.map subPair)) ∧
    (∀ row ∈ (mkAggs raw).map (fun p => mkRow p.2), ∀ i : Fin 18,
      row.avgs i = jdiv
        (jsum ((raw.filter (fun s =>
            s.sessionId == row.sessionId && s.studentName == row.studentName)).map
          (fun s => s.scores i)))
        (raw.filter (fun s =>
            s.sessionId == row.sessionId && s.studentName == row.studentName)).length) := by
  have hinj : ∀ p ∈ raw.map subPair, ∀ q ∈ raw.map subPair, pairKey p = pairKey q → p = q := by
    intro p hp q hq hk
    rcases List.mem_map.mp hp with ⟨a, ha, rfl⟩
    rcases List.mem_map.mp hq with ⟨b, hb, rfl⟩
    obtain ⟨h1, h2⟩ := key_pair_inj (hid a ha) (hid b hb) hk
    show (a.sessionId, a.studentName) = (b.sessionId, b.studentName)
    rw [show a.sessionId = b.sessionId from h1, show a.studentName = b.studentName from h2]
  have hkeys : firstOccDedup (raw.map subKey)
      = (firstOccDedup (raw.map subPair)).map pairKey := by
    have h1 : raw.map subKey = (raw.map subPair).map pairKey := by
      rw [List.map_map]
      rfl
    rw [h1]
    exact firstOccDedup_map_of_inj hinj
  have hfilter : (raw.map subKey).filter (fun k => !(protoKeys.contains k))
      = raw.map subKey := by
    apply List.filter_eq_self.mpr
    intro k hkm
    rcases List.mem_map.mp hkm with ⟨a, ha, rfl⟩
    have hc : protoKeys.contains (subKey a) = false := by
      cases hcc : protoKeys.contains (subKey a)
      · rfl
      · exact absurd (List.elem_iff.mp hcc) (hpk a ha)
    rw [hc]
    rfl
  have hrows : (mkAggs raw).map (fun p => mkRow p.2)
      = (firstOccDedup (raw.map subPair)).map
          (fun p => mkRow (entryFor raw (pairKey p))) := by
    unfold mkAggs
    rw [hfilter, hkeys, List.map_map, List.map_map]
    rfl
  have hmain : ∀ p ∈ firstOccDedup (raw.map subPair),
      ((mkRow (entryFor raw (pairKey p))).sessionId,
        (mkRow (entryFor raw (pairKey p))).studentName) = p ∧
      keyGroup raw (pairKey p)
        = raw.filter (fun s =>
            s.sessionId == (mkRow (entryFor raw (pairKey p))).sessionId &&
            s.studentName == (mkRow (entryFor raw (pairKey p))).studentName) := by
    intro p hp
    have hpmem : p ∈ raw.map subPair := mem_firstOccDedup.mp hp
    rcases List.mem_map.mp hpmem with ⟨a, ha, rfl⟩
    have hamem : a ∈ keyGroup raw (pairKey (subPair a)) :=
      List.mem_filter.mpr ⟨ha, by simp [subKey, pairKey, subPair]⟩
    obtain ⟨h0, t, hgroup⟩ : ∃ h0 t, keyGroup raw (pairKey (subPair a)) = h0 :: t := by
      cases hg : keyGroup raw (pairKey (subPair a)) with
      | nil => rw [hg] at hamem; cases hamem
      | cons h0 t => exact ⟨h0, t, rfl⟩
    have hh0 : h0 ∈ keyGroup raw (pairKey (subPair a)) := by
      rw [hgroup]
      exact List.mem_cons_self _ _
    have hh0raw : h0 ∈ raw := (List.mem_filter.mp hh0).1
    have hh0key : subKey h0 = pairKey (subPair a) := by
      simpa using (List.mem_filter.mp hh0).2
    have hpair : subPair h0 = subPair a := by
      obtain ⟨h1, h2⟩ := key_pair_inj (hid h0 hh0raw) (hid a ha) hh0key
      show (h0.sessionId, h0.studentName) = (a.sessionId, a.studentName)
      rw [show h0.sessionId = a.sessionId from h1,
        show h0.studentName = a.studentName from h2]
    have hp1 : h0.sessionId = a.sessionId := congrArg Prod.fst hpair
    have hp2 : h0.studentName = a.studentName := congrArg Prod.snd hpair
    have hfields : (mkRow (entryFor raw (pairKey (subPair a)))).sessionId = h0.sessionId ∧
        (mkRow (entryFor raw (pairKey (subPair a)))).studentName = h0.studentName := by
      unfold mkRow entryFor entryOfGroup
      rw [hgroup]
      simp
    constructor
    · rw [hfields.1, hfields.2, hp1, hp2]
      rfl
    · apply List.filter_congr
      intro s hsraw
      rw [hfields.1, hfields.2]
      rw [Bool.eq_iff_iff]
      simp only [beq_iff_eq, Bool.and_eq_true]
      constructor
      · intro h
        obtain ⟨h1, h2⟩ := key_pair_inj (hid s hsraw) (hid a ha) h
        exact ⟨h1.trans hp1.symm, h2.trans hp2.symm⟩
      · rintro ⟨h1, h2⟩
        show s.sessionId ++ "_" ++ s.studentName = a.sessionId ++ "_" ++ a.studentName
        rw [h1, hp1, h2, hp2]
  constructor
  · rw [hrows, List.map_map]
    have hpt : ∀ p ∈ firstOccDedup (raw.map subPair),
        ((fun row => (row.sessionId, row.studentName)) ∘
          (fun p => mkRow (entryFor raw (pairKey p)))) p = p := by
      intro p hp
      exact (hmain p hp).1
    rw [List.map_congr_left hpt]
    exact List.map_id _
  · intro row hrow i
    rw [hrows] at hrow
    rcases List.mem_map.mp hrow with ⟨p, hp, rfl⟩
    have hgrp := (hmain p hp).2
    rw [← hgrp]
    rfl

/-- Counterexample to C1 as stated, at two concrete stored states.  First,
the grouping key `sessionId ++ "_" ++ studentName` is not injective: with
session ids "a" and "a_b" in the same campus, the distinct pairs
("a", "b_c") and ("a_b", "c") share the key "a_b_c" and collapse into a
single aggregate row instead of two.  Second, a key colliding with an
`Object.prototype` property yields no row at all: with the underscore-free
session id "" and student name "_proto__", the key is "__proto__", the
truthy inherited accessor makes `if (!aggregates[key])` skip entry
creation, and the one distinct pair gets zero aggregate rows. -/
theorem aggregation_pairs_cex :
    ((resultsWithAverages (DB.mk
        [Session.mk "a" "N" "X" [] [], Session.mk "a_b" "N" "X" [] []]
        [Submission.mk "a" "J" "b_c" (fun _ => JsNum.num 0) "",
         Submission.mk "a_b" "J" "c" (fun _ => JsNum.num 2) ""]) "X").1.aggregated.length
      = 1) ∧
    ((firstOccDedup (List.map subPair ((resultsWithAverages (DB.mk
        [Session.mk "a" "N" "X" [] [], Session.mk "a_b" "N" "X" [] []]
        [Submission.mk "a" "J" "b_c" (fun _ => JsNum.num 0) "",
         Submission.mk "a_b" "J" "c" (fun _ => JsNum.num 2) ""]) "X").1.rawSubmissions))).length
      = 2) ∧
    ((resultsWithAverages (DB.mk [Session.mk "" "N" "X" [] []]
        [Submission.mk "" "J" "_proto__" (fun _ => JsNum.num 1) ""]) "X").1.aggregated.length
      = 0) ∧
    ((firstOccDedup (List.map subPair ((resultsWithAverages (DB.mk
        [Session.mk "" "N" "X" [] []]
        [Submission.mk "" "J" "_proto__" (fun _ => JsNum.num 1) ""]) "X").1.rawSubmissions))).length
      = 1) := by
  exact ⟨rfl, rfl, rfl, rfl⟩

/-- C1 amended: provided no session id of the campus contains an underscore
(true of the uuid-generated ids) and no campus submission's grouping key
equals an `Object.prototype` property name such as `__proto__` (true of
ordinary student names), resultsWithAverages returns one aggregate row per
distinct (sessionId, studentName) pair occurring among the campus's raw
submissions, in first-occurrence order, and each row's per-criterion
average equals the sum of that criterion over the pair's submissions
divided by their count. -/
theorem resultsWithAverages_spec (db : DB) (campus : String)
    (hub : ∀ s ∈ db.sessions, s.campus = campus → '_' ∉ s.id.data)
    (hpk : ∀ a ∈ (resultsWithAverages db campus).1.rawSubmissions,
      subKey a ∉ protoKeys) :
    ((resultsWithAverages db campus).1.aggregated.map
        (fun row => (row.sessionId, row.studentName))
      = firstOccDedup ((resultsWithAverages db campus).1.rawSubmissions.map subPair)) ∧
    (∀ row ∈ (resultsWithAverages db campus).1.aggregated, ∀ i : Fin 18,
      row.avgs i = jdiv
        (jsum (((resultsWithAverages db campus).1.rawSubmissions.filter (fun s =>
            s.sessionId == row.sessionId && s.studentName == row.studentName)).map
          (fun s => s.scores i)))
        ((resultsWithAverages db campus).1.rawSubmissions.filter (fun s =>
            s.sessionId == row.sessionId && s.studentName == row.studentName)).length) := by
  have hid : ∀ a ∈ (resultsWithAverages db campus).1.rawSubmissions,
      '_' ∉ a.sessionId.data := by
    intro a ha
    have h2 : (((db.sessions.filter (fun s => s.campus == campus)).map
          (fun s => s.id)).contains a.sessionId) = true :=
      (List.mem_filter.mp ha).2
    have h3 : a.sessionId
        ∈ (db.sessions.filter (fun s => s.campus == campus)).map (fun s => s.id) := by
      simpa [List.elem_iff] using h2
    rcases List.mem_map.mp h3 with ⟨sess, hsess, hsid⟩
    have h4 := List.mem_filter.mp hsess
    have h5 : sess.campus = campus := by simpa using h4.2
    rw [← hsid]
    exact hub sess h4.1 h5
  have h := mkAggs_pairs ((resultsWithAverages db campus).1.rawSubmissions) hid hpk
  have hagg : (resultsWithAverages db campus).1.aggregated
      = (mkAggs (resultsWithAverages db campus).1.rawSubmissions).map
          (fun p => mkRow p.2) := by
    show (aggregatesOf (resultsWithAverages db campus).1.rawSubmissions).map
        (fun p => mkRow p.2) = _
    rw [aggregatesOf_eq]
  constructor
  · rw [hagg]
    exact h.1
  · intro row hrow i
    rw [hagg] at hrow
    exact h.2 row hrow i

/-- Witness for the amended C1 at a concrete store: one student with two
submissions yields exactly one aggregate row keyed ("s1", "F"), whose first
criterion average is the sum of the two submitted values divided by 2. -/
theorem resultsWithAverages_spec_witness :
    ((resultsWithAverages (DB.mk [Session.mk "s1" "S" "X" ["J"] ["F"]]
        [Submission.mk "s1" "J" "F" (fun _ => JsNum.num 1) "",
         Submission.mk "s1" "J" "F" (fun _ => JsNum.num 2) ""]) "X").1.aggregated.map
      (fun row => (row.sessionId, row.studentName)) = [("s1", "F")]) ∧
    ((resultsWithAverages (DB.mk [Session.mk "s1" "S" "X" ["J"] ["F"]]
        [Submission.mk "s1" "J" "F" (fun _ => JsNum.num 1) "",
         Submission.mk "s1" "J" "F" (fun _ => JsNum.num 2) ""]) "X").1.aggregated.map
      (fun row => row.avgs 0) = [jdiv (jsum [JsNum.num 1, JsNum.num 2]) 2]) := by
  constructor
  · exact (resultsWithAverages_spec (DB.mk [Session.mk "s1" "S" "X" ["J"] ["F"]]
      [Submission.mk "s1" "J" "F" (fun _ => JsNum.num 1) "",
       Submission.mk "s1" "J" "F" (fun _ => JsNum.num 2) ""]) "X" (by decide)
      (by decide)).1.trans (by rfl)
  · rfl

/-- Counterexample to C4 as stated: campus B mutating campus A's session
through add-jury with an empty jury name is answered with 400 (the
missing-name validation fires first), not with 403 Forbidden. -/
theorem ownership_isolation_cex :
    statusCode (addJury (DB.mk [Session.mk "s1" "S" "A" [] []] []) "B" "s1" (some "")).1
      = 400 ∧
    statusCode (addJury (DB.mk [Session.mk "s1" "S" "A" [] []] []) "B" "s1" (some "")).1
      ≠ 403 := by
  decide

/-- C4 amended: a session of campus A is never listed for campus B ≠ A, and
every mutating operation from B on A's session whose arguments pass the
operation's own field validation (a present, nonempty name for the add
operations) fails with 403 Forbidden and leaves the store unchanged; the
validation-failing add requests also leave the store unchanged (they fail
with 400 instead). -/
theorem ownership_isolation (db : DB) (A B : String) (hAB : A ≠ B) (hu : uniqueIds db) :
    ∀ s ∈ db.sessions, s.campus = A →
      s ∉ (listSessions db B).1 ∧
      deleteSession db B s.id
        = (ApiResult.forbidden "Forbidden - Session belongs to another campus.", db) ∧
      (∀ j : String, j ≠ "" → addJury db B s.id (some j)
        = (ApiResult.forbidden "Forbidden - Session belongs to another campus.", db)) ∧
      (∀ nameQ : Option String, removeJury db B s.id nameQ
        = (ApiResult.forbidden "Forbidden - Session belongs to another campus.", db)) ∧
      (∀ st : String, st ≠ "" → addStudent db B s.id (some st)
        = (ApiResult.forbidden "Forbidden - Session belongs to another campus.", db)) ∧
      (∀ nameQ : Option String, removeStudent db B s.id nameQ
        = (ApiResult.forbidden "Forbidden - Session belongs to another campus.", db)) ∧
      (∀ r : SubmitRequest, r.sessionId = s.id → submitEvaluation db B r
        = (ApiResult.forbidden "Forbidden - Session belongs to another campus.", db)) ∧
      (∀ nameQ : Option String,
        (addJury db B s.id nameQ).2 = db ∧ (addStudent db B s.id nameQ).2 = db) := by
  intro s hs hA
  have hfind : db.sessions.find? (fun t => t.id == s.id) = some s :=
    find?_id_eq_of_nodup hu hs rfl
  have hBne : s.campus ≠ B := by
    rw [hA]
    exact hAB
  refine ⟨?_, ?_, ?_, ?_, ?_, ?_, ?_, ?_⟩
  · intro hmem
    have h2 : s.campus = B := by
      simpa using (List.mem_filter.mp hmem).2
    exact hBne h2
  · simp only [deleteSession, hfind]
    rw [if_pos hBne]
  · intro j hj
    simp only [addJury, hfind]
    rw [if_neg hj, if_pos hBne]
  · intro nameQ
    simp only [removeJury, hfind]
    rw [if_pos hBne]
  · intro st hst
    simp only [addStudent, hfind]
    rw [if_neg hst, if_pos hBne]
  · intro nameQ
    simp only [removeStudent, hfind]
    rw [if_pos hBne]
  · intro r hr
    simp only [submitEvaluation, hr, hfind]
    rw [if_pos hBne]
  · intro nameQ
    constructor
    · cases nameQ with
      | none => rfl
      | some j =>
        by_cases hj : j = ""
        · simp [addJury, hj]
        · simp only [addJury, hfind]
          rw [if_neg hj, if_pos hBne]
    · cases nameQ with
      | none => rfl
      | some st =>
        by_cases hst : st = ""
        · simp [addStudent, hst]
        · simp only [addStudent, hfind]
          rw [if_neg hst, if_pos hBne]

/-- Witness for the amended C4 at a concrete store: campus B deleting
campus A's session gets 403 with the store unchanged. -/
theorem ownership_isolation_witness :
    deleteSession (DB.mk [Session.mk "s1" "S" "A" [] []] []) "B" "s1"
      = (ApiResult.forbidden "Forbidden - Session belongs to another campus.",
         DB.mk [Session.mk "s1" "S" "A" [] []] []) := by
  have h := ownership_isolation (DB.mk [Session.mk "s1" "S" "A" [] []] []) "A" "B"
    (by decide) (by decide) (Session.mk "s1" "S" "A" [] []) (by decide) rfl
  exact h.2.1

/-- Relation between stores: every session of the second carries the id and
campus of a session of the first (so no campus field was rewritten). -/
def campusPreserved (db db' : DB) : Prop :=
  ∀ s' ∈ db'.sessions, ∃ s ∈ db.sessions, s'.id = s.id ∧ s'.campus = s.campus

theorem campusPreserved_self (db : DB) : campusPreserved db db :=
  fun s' hs' => ⟨s', hs', rfl, rfl⟩

/-- C8: no route handler modifies the campus of an existing session: after
any operation every stored session carries the id and campus it had before
the call — except that create may add its single new session, which gets
the caller's campus. -/
theorem campus_immutable (db : DB) (campus freshId sessionId : String)
    (name nameQ : Option String) (r : SubmitRequest) :
    campusPreserved db (listSessions db campus).2 ∧
    (∀ s' ∈ (createSession db campus freshId name).2.sessions,
      (∃ s ∈ db.sessions, s'.id = s.id ∧ s'.campus = s.campus) ∨
        (s'.id = freshId ∧ s'.campus = campus)) ∧
    campusPreserved db (deleteSession db campus sessionId).2 ∧
    campusPreserved db (addJury db campus sessionId nameQ).2 ∧
    campusPreserved db (removeJury db campus sessionId nameQ).2 ∧
    campusPreserved db (addStudent db campus sessionId nameQ).2 ∧
    campusPreserved db (removeStudent db campus sessionId nameQ).2 ∧
    campusPreserved db (submitEvaluation db campus r).2 ∧
    campusPreserved db (resultsWithAverages db campus).2 := by
  refine ⟨campusPreserved_self db, ?_, ?_, ?_, ?_, ?_, ?_, ?_, campusPreserved_self db⟩
  · intro s' hs'
    cases name with
    | none => exact Or.inl ⟨s', hs', rfl, rfl⟩
    | some n =>
      by_cases hn : n = ""
      · simp only [createSession, if_pos hn] at hs'
        exact Or.inl ⟨s', hs', rfl, rfl⟩
      · simp only [createSession, if_neg hn] at hs'
        rcases List.mem_append.mp hs' with h | h
        · exact Or.inl ⟨s', h, rfl, rfl⟩
        · have hnew : s' = ⟨freshId, n, campus, [], []⟩ := List.mem_singleton.mp h
          subst hnew
          exact Or.inr ⟨rfl, rfl⟩
  · intro s' hs'
    cases hfind : db.sessions.find? (fun s => s.id == sessionId) with
    | none =>
      simp only [deleteSession, hfind] at hs'
      exact ⟨s', hs', rfl, rfl⟩
    | some sf =>
      by_cases hcamp : sf.campus ≠ campus
      · simp only [deleteSession, hfind, if_pos hcamp] at hs'
        exact ⟨s', hs', rfl, rfl⟩
      · simp only [deleteSession, hfind, if_neg hcamp] at hs'
        exact ⟨s', (List.eraseP_sublist db.sessions).subset hs', rfl, rfl⟩
  · intro s' hs'
    cases nameQ with
    | none => exact ⟨s', hs', rfl, rfl⟩
    | some j =>
      by_cases hj : j = ""
      · simp only [addJury, if_pos hj] at hs'
        exact ⟨s', hs', rfl, rfl⟩
      · cases hfind : db.sessions.find? (fun s => s.id == sessionId) with
        | none =>
          simp only [addJury, if_neg hj, hfind] at hs'
          exact ⟨s', hs', rfl, rfl⟩
        | some sf =>
          by_cases hcamp : sf.campus ≠ campus
          · simp only [addJury, if_neg hj, hfind, if_pos hcamp] at hs'
            exact ⟨s', hs', rfl, rfl⟩
          · simp only [addJury, if_neg hj, hfind, if_neg hcamp] at hs'
            rcases mem_updateFirst hs' with h | ⟨s, _, rfl⟩
            · exact ⟨s', h, rfl, rfl⟩
            · exact ⟨sf, List.mem_of_find?_eq_some hfind, rfl, rfl⟩
  · intro s' hs'
    cases hfind : db.sessions.find? (fun s => s.id == sessionId) with
    | none =>
      simp only [removeJury, hfind] at hs'
      exact ⟨s', hs', rfl, rfl⟩
    | some sf =>
      by_cases hcamp : sf.campus ≠ campus
      · simp only [removeJury, hfind, if_pos hcamp] at hs'
        exact ⟨s', hs', rfl, rfl⟩
      · simp only [removeJury, hfind, if_neg hcamp] at hs'
        rcases mem_updateFirst hs' with h | ⟨s, _, rfl⟩
        · exact ⟨s', h, rfl, rfl⟩
        · exact ⟨sf, List.mem_of_find?_eq_some hfind, rfl, rfl⟩
  · intro s' hs'
    cases nameQ with
    | none => exact ⟨s', hs', rfl, rfl⟩
    | some st =>
      by_cases hst : st = ""
      · simp only [addStudent, if_pos hst] at hs'
        exact ⟨s', hs', rfl, rfl⟩
      · cases hfind : db.sessions.find? (fun s => s.id == sessionId) with
        | none =>
          simp only [addStudent, if_neg hst, hfind] at hs'
          exact ⟨s', hs', rfl, rfl⟩
        | some sf =>
          by_cases hcamp : sf.campus ≠ campus
          · simp only [addStudent, if_neg hst, hfind, if_pos hcamp] at hs'
            exact ⟨s', hs', rfl, rfl⟩
          · simp only [addStudent, if_neg hst, hfind, if_neg hcamp] at hs'
            rcases mem_updateFirst hs' with h | ⟨s, _, rfl⟩
            · exact ⟨s', h, rfl, rfl⟩
            · exact ⟨sf, List.mem_of_find?_eq_some hfind, rfl, rfl⟩
  · intro s' hs'
    cases hfind : db.sessions.find? (fun s => s.id == sessionId) with
    | none =>
      simp only [removeStudent, hfind] at hs'
      exact ⟨s', hs', rfl, rfl⟩
    | some sf =>
      by_cases hcamp : sf.campus ≠ campus
      · simp only [removeStudent, hfind, if_pos hcamp] at hs'
        exact ⟨s', hs', rfl, rfl⟩
      · simp only [removeStudent, hfind, if_neg hcamp] at hs'
        rcases mem_updateFirst hs' with h | ⟨s, _, rfl⟩
        · exact ⟨s', h, rfl, rfl⟩
        · exact ⟨sf, List.mem_of_find?_eq_some hfind, rfl, rfl⟩
  · intro s' hs'
    have hsess : (submitEvaluation db campus r).2.sessions = db.sessions := by
      unfold submitEvaluation
      split
      · rfl
      · split
        · rfl
        · split
          · rfl
          · split
            · rfl
            · rfl
    rw [hsess] at hs'
    exact ⟨s', hs', rfl, rfl⟩

/-- Witness for C8 at a concrete store: after a no-op jury removal request
the stored session still carries its original id and campus. -/
theorem campus_immutable_witness :
    ∃ s ∈ [Session.mk "a" "A" "X" [] []],
      (Session.mk "a" "A" "X" [] []).id = s.id ∧
      (Session.mk "a" "A" "X" [] []).campus = s.campus :=
  (campus_immutable (DB.mk [Session.mk "a" "A" "X" [] []] []) "X" "f" "a" none none
      (SubmitRequest.mk "a" "J" "F" (fun _ => "1") none)).2.2.2.1
    (Session.mk "a" "A" "X" [] []) (by decide)

/-- Witness for C3 at a concrete store: an unknown jury is rejected with
the store unchanged, and a valid request appends exactly one submission. -/
theorem submitEvaluation_spec_witness :
    submitEvaluation (DB.mk [Session.mk "s1" "S" "Paris" ["J"] ["F"]] []) "Paris"
        (SubmitRequest.mk "s1" "K" "F" (fun _ => "1") none)
      = (ApiResult.badRequest "Jury does not exist in this session.",
         DB.mk [Session.mk "s1" "S" "Paris" ["J"] ["F"]] []) ∧
    submitEvaluation (DB.mk [Session.mk "s1" "S" "Paris" ["J"] ["F"]] []) "Paris"
        (SubmitRequest.mk "s1" "J" "F" (fun _ => "1") none)
      = (ApiResult.ok "Evaluation submitted successfully!" none,
         DB.mk [Session.mk "s1" "S" "Paris" ["J"] ["F"]]
           [mkSubmission (SubmitRequest.mk "s1" "J" "F" (fun _ => "1") none)]) := by
  constructor
  · exact (((submitEvaluation_spec (DB.mk [Session.mk "s1" "S" "Paris" ["J"] ["F"]] [])
      "Paris" (SubmitRequest.mk "s1" "K" "F" (fun _ => "1") none) (by decide)).2
      (Session.mk "s1" "S" "Paris" ["J"] ["F"]) (by decide) rfl).2.1 rfl (by decide))
  · exact (((submitEvaluation_spec (DB.mk [Session.mk "s1" "S" "Paris" ["J"] ["F"]] [])
      "Paris" (SubmitRequest.mk "s1" "J" "F" (fun _ => "1") none) (by decide)).2
      (Session.mk "s1" "S" "Paris" ["J"] ["F"]) (by decide) rfl).2.2.2 rfl (by decide)
      (by decide))

end Demoday
